import Mathlib

/-!
# Verification of the FedProx local-training strategy

Shallow embedding of `secretflow/ml/nn/fl/backend/tensorflow/strategy/fed_prox.py`:
the class `FedProx` with its methods `w_norm` and `train_step`.

Modelling decisions:
* A tensor is modelled at rank 1 as a list of rationals (`Tensor`); a parameter
  set (`Params`) is the ordered list of a model's trainable variables, and a
  feature batch (`Mat`) is a list of rows.  Rationals stand in for IEEE floats:
  the claims under study are about control flow, bookkeeping and exact algebraic
  shape of the computations, not rounding.
* `tf.nest.map_structure(lambda a, b: a - b, w1, w2)` first checks that the two
  nests have the same structure (`structureMismatch` on different list lengths)
  and then applies elementwise subtraction, which follows numpy/TF broadcasting:
  equal lengths subtract pointwise, a length-1 tensor broadcasts against the
  other side, anything else raises (`incompatibleShapes`).
* `tf.linalg.global_norm` is `sqrt` of the sum of squares of all elements.  The
  code only ever uses `tf.square(w_norm ...)`, i.e. the square of that norm,
  which is exactly the rational `sumSq` of the differences; `wNormSq` embeds
  that composition so the development stays executable, and the square/sqrt
  cancellation is proved where a claim mentions the norm itself.
* The underlying Keras model, its compiled loss, its autodiff gradient, its
  optimizer and its compiled metrics are external collaborators; they are
  abstracted as the fields of `CompiledModel` (arbitrary functions), while the
  mutable state they act on (`ModelState`) is explicit.  The gradient of the
  proximal term `mu/2 * ||v - w||^2` with respect to the variables `v` is the
  analytic `mu * (v - w)`; the tape in the source differentiates exactly this
  closed form, so the embedding adds it to the model's base gradient.
* Keras callbacks (`on_train_batch_begin` / `on_train_batch_end`) only observe
  logs and do not touch model, metric or optimizer state; they are omitted.
* Python exceptions are the error side of `Except`: the `assert` on a missing
  model, `set_weights` shape checking (Keras raises `ValueError`), the
  `NameError` for a read of a never-bound local, `StopIteration` from an
  exhausted iterator, and TF op errors.
* The unpacking `if len(iter_data) == 2 ... elif len(iter_data) == 3 ...` has
  no else-branch: a tuple of any other length leaves `x, y, s_w` holding the
  values bound by the previous loop iteration (Python function-local scope), or
  unbound on the first iteration.  `Locals` models the post-normalisation
  bindings of `x, y, s_w`, and `Option Locals` their possibly-unbound status.
-/

deriving instance DecidableEq for Except

namespace FedProxSpec

/-- A rank-1 tensor of rational entries. -/
abbrev Tensor := List ℚ

/-- An ordered sequence of tensors: a model's full trainable state
(`model.trainable_variables` / the `weights` argument). -/
abbrev Params := List Tensor

/-- A batch feature array, as a list of rows (`x.shape[0]` = number of rows). -/
abbrev Mat := List (List ℚ)

/-- Errors raised by the TensorFlow ops used in `w_norm`. -/
inductive TfError
  /-- `tf.nest.map_structure` rejects nests of different structure
  (different tensor counts). -/
  | structureMismatch
  /-- elementwise `a - b` on shapes that are not broadcast-compatible. -/
  | incompatibleShapes
deriving DecidableEq, Repr

/-- Python-level exceptions surfaced by `train_step`. -/
inductive PyError
  /-- the `assert self.model is not None` at the top of `train_step`. -/
  | assertionError
  /-- `ValueError`, e.g. from `set_weights` on mismatched shapes. -/
  | valueError
  /-- reading a local variable that was never bound
  (`UnboundLocalError`, a subclass of `NameError`). -/
  | nameError
  /-- `next(self.train_set)` on an exhausted iterator. -/
  | stopIteration
  /-- a TensorFlow op error escaping the tape block. -/
  | tf (e : TfError)
deriving DecidableEq, Repr

/-- The shape signature of a parameter set: the length of each tensor. -/
def shapeSig (w : Params) : List ℕ := w.map List.length

/-- Sum of the squared entries of one tensor. -/
def sumSqT (t : Tensor) : ℚ := (t.map fun a => a * a).sum

/-- Sum of the squared entries over a whole list of tensors: the square of
`tf.linalg.global_norm` of that list. -/
def sumSq (w : List Tensor) : ℚ := (w.map sumSqT).sum

/-- Elementwise subtraction `a - b` of two rank-1 tensors with numpy/TF
broadcasting: equal lengths subtract pointwise, a length-1 operand broadcasts
against the other side, and any other combination raises. -/
def bsub (a b : Tensor) : Except TfError Tensor :=
  if a.length = b.length then .ok (List.zipWith (fun x y => x - y) a b)
  else if a.length = 1 then .ok (b.map fun x => a.headD 0 - x)
  else if b.length = 1 then .ok (a.map fun x => x - b.headD 0)
  else .error .incompatibleShapes

/-- Apply `bsub` index-wise to two lists of tensors of equal length. -/
def zipSub : Params → Params → Except TfError Params
  | [], [] => .ok []
  | a :: t1, b :: t2 =>
    match bsub a b with
    | .error e => .error e
    | .ok d =>
      match zipSub t1 t2 with
      | .error e => .error e
      | .ok ds => .ok (d :: ds)
  | _, _ => .error .structureMismatch

/-- `tf.nest.map_structure(lambda a, b: a - b, w1, w2)`: the structures (list
lengths) must agree, then the subtraction is applied index-wise. -/
def mapStructureSub (w1 w2 : Params) : Except TfError Params :=
  if w1.length = w2.length then zipSub w1 w2 else .error .structureMismatch

/-- `tf.square (FedProx.w_norm w1 w2)`: the squared global norm of the
tensor-wise difference `w1 - w2`.  (`w_norm` itself is
`tf.linalg.global_norm(w1_minus_w2)`, i.e. the square root of this value; the
source always consumes it squared, and squaring cancels the root.) -/
def wNormSq (w1 w2 : Params) : Except TfError ℚ :=
  (mapStructureSub w1 w2).map sumSq

/-- Exact (non-broadcasting) tensor-wise difference, defined for parameter sets
of identical shape signature. -/
def paramsSub (a b : Params) : Params :=
  List.zipWith (fun t u => List.zipWith (fun x y => x - y) t u) a b

/-- Elementwise sum of two parameter sets of identical shape signature
(gradient accumulation inside the tape). -/
def addParams (g d : Params) : Params :=
  List.zipWith (fun t u => List.zipWith (fun x y => x + y) t u) g d

/-- Scalar multiple of a parameter set. -/
def scaleParams (c : ℚ) (d : Params) : Params :=
  d.map fun t => t.map fun x => c * x

/-- Batch features as yielded by the train set: either already array-shaped, or
a `collections.OrderedDict` mapping column names to column arrays. -/
inductive Feat
  | arr (m : Mat)
  | dict (cols : List (String × Tensor))
deriving DecidableEq, Repr

/-- `if isinstance(x, collections.OrderedDict): x = tf.stack(list(x.values()), axis=1)`:
an ordered mapping of columns is stacked along axis 1 into a row-major array;
an array passes through unchanged. -/
def normalizeFeat : Feat → Mat
  | .arr m => m
  | .dict cols => (cols.map Prod.snd).transpose

/-- One item yielded by `next(self.train_set)`: a tuple of length 2
(features, labels), of length 3 (features, labels, sample weights), or of any
other length (which the unpacking code silently skips). -/
inductive RawBatch
  | pair (x : Feat) (y : Tensor)
  | triple (x : Feat) (y : Tensor) (sw : Tensor)
  | malformed (len : ℕ)
deriving DecidableEq, Repr

/-- The loop-local Python variables `x, y, s_w` after feature normalisation. -/
abbrev Locals := Mat × Tensor × Option Tensor

/-- Binding of `x, y, s_w` for the current iteration: a length-2 tuple binds
`(x, y)` and `s_w = None`, a length-3 tuple binds all three, and any other
length leaves the previous iteration's bindings in place — raising
`NameError` at the subsequent `isinstance(x, ...)` read if they were never
bound. -/
def unpackBatch (b : RawBatch) (loc : Option Locals) : Except PyError Locals :=
  match b with
  | .pair f y => .ok (normalizeFeat f, y, none)
  | .triple f y sw => .ok (normalizeFeat f, y, some sw)
  | .malformed _ =>
    match loc with
    | some l => .ok l
    | none => .error .nameError

/-- The external collaborators bundled in the attached Keras model, abstracted
as arbitrary functions: forward pass, compiled loss (with the model's
regularization losses), the autodiff gradient of that loss with respect to the
trainable variables, compiled-metric state update and read-out, and the
optimizer's `apply_gradients`.  `MS` is the running metric state (including the
compiled-loss tracker), `OS` the optimizer's internal state (e.g. momentum). -/
structure CompiledModel (MS OS : Type) where
  /-- `self.model(x, training=True)`. -/
  predict : Params → Mat → Tensor
  /-- `self.model.compiled_loss(y, y_pred, regularization_losses=self.model.losses,
  sample_weight=s_w)` with `y_pred` the forward pass at the given parameters. -/
  baseLoss : Params → Mat → Tensor → Option Tensor → ℚ
  /-- the autodiff gradient of `baseLoss` with respect to the parameters. -/
  baseGrad : Params → Mat → Tensor → Option Tensor → Params
  /-- `self.model.compiled_metrics.update_state(y, y_pred)`. -/
  metricUpdate : MS → Tensor → Tensor → MS
  /-- `{m.name: m.result().numpy() for m in self.model.metrics}`. -/
  metricResult : MS → List (String × ℚ)
  /-- `self.model.optimizer.apply_gradients(zip(gradients, trainable_vars))`:
  from optimizer state, gradients and variables to new optimizer state and new
  variables. -/
  optApply : OS → Params → Params → OS × Params

/-- The mutable state carried by the attached model. -/
structure ModelState (MS OS : Type) where
  params : Params
  metricState : MS
  optState : OS
deriving DecidableEq, Repr

/-- `dp_strategy`: an optional differential-privacy strategy whose `model_gdp`
field, when present, post-processes the outgoing weights. -/
structure DPStrategy where
  model_gdp : Option (Params → Params)

/-- The state of the `FedProx` worker object that `train_step` reads and
writes: the attached model (possibly absent), the train-set iterator (modelled
as the list of batches still to be yielded), and the retained log snapshots
`self.logs` and `self.epoch_logs`. -/
structure WorkerState (MS OS : Type) where
  model : Option (ModelState MS OS)
  train_set : List RawBatch
  logs : List (String × ℚ)
  epoch_logs : List (String × ℚ)
deriving DecidableEq, Repr

variable {MS OS : Type}

/-- `self.model.set_weights(weights)`: Keras rejects weight lists whose shapes
do not match the model's variables; otherwise the live parameters are
overwritten. -/
def setWeights (ms : ModelState MS OS) (w : Params) :
    Except PyError (ModelState MS OS) :=
  if shapeSig w = shapeSig ms.params then .ok { ms with params := w }
  else .error .valueError

/-- `if weights is not None: self.model.set_weights(weights)`. -/
def seedModel (ms : ModelState MS OS) : Option Params → Except PyError (ModelState MS OS)
  | none => .ok ms
  | some w => setWeights ms w

/-- The tape block of one training step (source lines 79–100): the loss value
and the gradient that `tape.gradient` extracts from it.  With an anchor
(`weights is not None`) the loss is the base compiled loss plus
`mu / 2 * tf.square(w_norm(weights, trainable_variables))`, and the gradient
gains the analytic derivative `mu * (vars - weights)` of that term; without an
anchor both are just the base quantities. -/
def stepLossGrad (M : CompiledModel MS OS) (anchor : Option Params) (mu : ℚ)
    (p : Params) (x : Mat) (y : Tensor) (sw : Option Tensor) :
    Except TfError (ℚ × Params) :=
  match anchor with
  | none => .ok (M.baseLoss p x y sw, M.baseGrad p x y sw)
  | some w =>
    match wNormSq w p with
    | .error e => .error e
    | .ok proximal =>
      match mapStructureSub p w with
      | .error e => .error e
      | .ok d =>
        .ok (M.baseLoss p x y sw + mu / 2 * proximal,
             addParams (M.baseGrad p x y sw) (scaleParams mu d))

/-- The `for _ in range(train_steps)` loop of `train_step`: pull the next
batch, bind/normalise `x, y, s_w`, accumulate `num_sample += x.shape[0]`,
differentiate the (possibly proximal-augmented) loss, apply one optimizer
update, and update the running metrics with `(y, y_pred)`.  The `anchor`
argument is the `weights` parameter of `train_step`, fixed for the whole
loop. -/
def trainLoop (M : CompiledModel MS OS) (anchor : Option Params) (mu : ℚ) :
    ℕ → ModelState MS OS → Option Locals → ℕ → List RawBatch →
    Except PyError (ModelState MS OS × Option Locals × ℕ × List RawBatch)
  | 0, ms, loc, num_sample, data => .ok (ms, loc, num_sample, data)
  | k + 1, ms, loc, num_sample, data =>
    match data with
    | [] => .error .stopIteration
    | b :: rest =>
      match unpackBatch b loc with
      | .error e => .error e
      | .ok l =>
        match stepLossGrad M anchor mu ms.params l.1 l.2.1 l.2.2 with
        | .error e => .error (.tf e)
        | .ok lg =>
          let ypred := M.predict ms.params l.1
          let applied := M.optApply ms.optState lg.2 ms.params
          trainLoop M anchor mu k
            ⟨applied.2, M.metricUpdate ms.metricState l.2.1 ypred, applied.1⟩
            (some l) (num_sample + l.1.length) rest

/-- The DP post-processing of the outgoing weights (source lines 111–114):
`if dp_strategy is not None: if dp_strategy.model_gdp is not None:
model_weights = dp_strategy.model_gdp(self.model.get_weights())`; the live
model is read (`get_weights`), never written. -/
def applyDp (dp_strategy : Option DPStrategy) (model_weights : Params) : Params :=
  match dp_strategy with
  | none => model_weights
  | some dp =>
    match dp.model_gdp with
    | none => model_weights
    | some f => f model_weights

/-- `FedProx.train_step(self, weights, cur_steps, train_steps, **kwargs)` with
`mu = kwargs.get('mu', 0.0)` and `dp_strategy = kwargs.get('dp_strategy', None)`
passed explicitly.  Returns the updated worker state together with the returned
`(model_weights, num_sample)` pair.  After the loop the metric snapshot is
finalized into `logs` and `self.logs = logs; self.epoch_logs = copy.deepcopy(self.logs)`
overwrites both retained snapshot fields with (value copies of) that same
snapshot. -/
def train_step (M : CompiledModel MS OS) (st : WorkerState MS OS)
    (weights : Option Params) (cur_steps train_steps : ℕ) (mu : ℚ)
    (dp_strategy : Option DPStrategy) :
    Except PyError (WorkerState MS OS × Params × ℕ) :=
  match st.model with
  | none => .error .assertionError
  | some ms0 =>
    match seedModel ms0 weights with
    | .error e => .error e
    | .ok ms1 =>
      match trainLoop M weights mu train_steps ms1 none 0 st.train_set with
      | .error e => .error e
      | .ok r =>
        let msF := r.1
        let logs := M.metricResult msF.metricState
        .ok (⟨some msF, r.2.2.2, logs, logs⟩, applyDp dp_strategy msF.params,
             r.2.2.1)

/-- Numpy/TF broadcast compatibility of two rank-1 tensors: equal lengths, or
one operand of length 1. -/
def broadcastCompat (a b : Tensor) : Prop :=
  a.length = b.length ∨ a.length = 1 ∨ b.length = 1

/-- A batch tuple of the documented arity (2 or 3). -/
def wellFormed : RawBatch → Bool
  | .malformed _ => false
  | _ => true

/-- Row count (`x.shape[0]`) of a batch's normalized feature array. -/
def rowsOf : RawBatch → ℕ
  | .pair f _ => (normalizeFeat f).length
  | .triple f _ _ => (normalizeFeat f).length
  | .malformed _ => 0

/-- An all-zero parameter set of the same shape signature as the input (used
as a degenerate privacy hook and as a degenerate gradient). -/
def zeroLike (p : Params) : Params := p.map fun t => t.map fun _ => (0 : ℚ)

/-- A minimal concrete collaborator model used to evaluate the embedding on
explicit inputs: empty predictions, zero base loss, an all-zero base gradient
of the right shape, no metrics, and an optimizer that leaves the variables
unchanged. -/
def MZ : CompiledModel Unit Unit where
  predict := fun _ _ => []
  baseLoss := fun _ _ _ _ => 0
  baseGrad := fun p _ _ _ => zeroLike p
  metricUpdate := fun _ _ _ => ()
  metricResult := fun _ => []
  optApply := fun os _ v => (os, v)

/-- A concrete collaborator model with one running metric: the metric state
counts label entries seen since the state was last externally reset (a stand-in
for any running mean/total metric), and is reported under the name `"m"`. -/
def MCount : CompiledModel ℕ Unit where
  predict := fun _ _ => []
  baseLoss := fun _ _ _ _ => 0
  baseGrad := fun p _ _ _ => zeroLike p
  metricUpdate := fun s y _ => s + y.length
  metricResult := fun s => [("m", (s : ℚ))]
  optApply := fun os _ v => (os, v)

/-- A well-formed one-row batch with a single label entry. -/
def b1 : RawBatch := .pair (.arr [[1]]) [1]

/-- Initial worker state for the metric-accumulation runs: metric state `0`,
two copies of `b1` still to be yielded. -/
def stA : WorkerState ℕ Unit :=
  ⟨some ⟨[[1]], 0, ()⟩, [b1, b1], [], []⟩

/-- `stA` after one run of one step: the metric state advanced to `1` and the
first batch was consumed. -/
def stB : WorkerState ℕ Unit :=
  ⟨some ⟨[[1]], 1, ()⟩, [b1], [("m", 1)], [("m", 1)]⟩

/-- `stB` after a second run of one step: the metric state advanced to `2`. -/
def stC : WorkerState ℕ Unit :=
  ⟨some ⟨[[1]], 2, ()⟩, [], [("m", 2)], [("m", 2)]⟩

/-- A well-formed batch with a two-row feature array. -/
def bigBatch2 : RawBatch := .pair (.arr [[1], [2]]) []

/-- A well-formed batch with a three-row feature array. -/
def bigBatch3 : RawBatch := .pair (.arr [[1], [2], [3]]) []

/-- Worker state whose source yields a 2-row batch then a 3-row batch. -/
def stG : WorkerState Unit Unit :=
  ⟨some ⟨[[1]], (), ()⟩, [bigBatch2, bigBatch3], [], []⟩

/-- Worker state whose source yields a well-formed 2-row batch and then a
malformed tuple of length 4. -/
def stM : WorkerState Unit Unit :=
  ⟨some ⟨[[1]], (), ()⟩, [bigBatch2, .malformed 4], [], []⟩

/-- Worker state with live parameters `[[1]]` and one pending batch. -/
def st5 : WorkerState Unit Unit :=
  ⟨some ⟨[[1]], (), ()⟩, [b1], [], []⟩

/-! ## Helper lemmas -/

theorem length_eq_of_shapeSig {p q : Params} (h : shapeSig p = shapeSig q) :
    p.length = q.length := by
  have h2 := congrArg List.length h
  simpa [shapeSig] using h2

theorem zipSub_of_shape {p : Params} : ∀ {q : Params}, shapeSig p = shapeSig q →
    zipSub p q = .ok (paramsSub p q) := by
  induction p with
  | nil =>
    intro q h
    cases q with
    | nil => rfl
    | cons b t2 => simp [shapeSig] at h
  | cons a t1 ih =>
    intro q h
    cases q with
    | nil => simp [shapeSig] at h
    | cons b t2 =>
      simp only [shapeSig, List.map_cons, List.cons.injEq] at h
      have htail : zipSub t1 t2 = .ok (paramsSub t1 t2) := ih h.2
      simp [zipSub, bsub, h.1, htail, paramsSub]

theorem mapStructureSub_of_shape {p q : Params} (h : shapeSig p = shapeSig q) :
    mapStructureSub p q = .ok (paramsSub p q) := by
  simp [mapStructureSub, length_eq_of_shapeSig h, zipSub_of_shape h]

theorem wNormSq_of_shape {p q : Params} (h : shapeSig p = shapeSig q) :
    wNormSq p q = .ok (sumSq (paramsSub p q)) := by
  simp [wNormSq, mapStructureSub_of_shape h, Except.map]

theorem sumSqT_nonneg (t : Tensor) : 0 ≤ sumSqT t := by
  unfold sumSqT
  induction t with
  | nil => simp
  | cons a t ih =>
    simp only [List.map_cons, List.sum_cons]
    have ha := mul_self_nonneg a
    linarith

theorem sumSq_nonneg (w : List Tensor) : 0 ≤ sumSq w := by
  unfold sumSq
  induction w with
  | nil => simp
  | cons t w ih =>
    simp only [List.map_cons, List.sum_cons]
    have ht := sumSqT_nonneg t
    linarith

theorem sumSqT_sub_comm (t : Tensor) : ∀ u : Tensor,
    sumSqT (List.zipWith (fun x y => x - y) t u) =
    sumSqT (List.zipWith (fun x y => x - y) u t) := by
  induction t with
  | nil => intro u; cases u <;> simp
  | cons a t ih =>
    intro u
    cases u with
    | nil => simp
    | cons b u2 =>
      simp only [List.zipWith_cons_cons, sumSqT, List.map_cons, List.sum_cons]
      have hh : (a - b) * (a - b) = (b - a) * (b - a) := by ring
      have ht := ih u2
      simp only [sumSqT] at ht
      rw [hh, ht]

theorem sumSq_sub_comm (p : Params) : ∀ q : Params,
    sumSq (paramsSub p q) = sumSq (paramsSub q p) := by
  induction p with
  | nil => intro q; cases q <;> simp [paramsSub]
  | cons a t1 ih =>
    intro q
    cases q with
    | nil => simp [paramsSub]
    | cons b t2 =>
      simp only [paramsSub, List.zipWith_cons_cons, sumSq, List.map_cons,
        List.sum_cons]
      have ht := ih t2
      simp only [paramsSub, sumSq] at ht
      rw [sumSqT_sub_comm a b, ht]

theorem shapeSig_paramsSub {p : Params} : ∀ {q : Params},
    shapeSig p = shapeSig q → shapeSig (paramsSub p q) = shapeSig p := by
  induction p with
  | nil => intro q _; simp [paramsSub, shapeSig]
  | cons a t1 ih =>
    intro q h
    cases q with
    | nil => simp [shapeSig] at h
    | cons b t2 =>
      simp only [shapeSig, List.map_cons, List.cons.injEq] at h
      have ht := ih (q := t2) h.2
      simp only [paramsSub, List.zipWith_cons_cons, shapeSig, List.map_cons,
        List.cons.injEq]
      refine ⟨?_, ht⟩
      simp [h.1]

theorem tAdd_scaleZero (t : Tensor) : ∀ u : Tensor, t.length = u.length →
    List.zipWith (fun x y => x + y) t (u.map fun x => (0 : ℚ) * x) = t := by
  induction t with
  | nil => intro u _; simp
  | cons a t1 ih =>
    intro u h
    cases u with
    | nil => simp at h
    | cons b u2 =>
      simp only [List.length_cons, Nat.succ.injEq] at h
      have hh : a + (0 : ℚ) * b = a := by ring
      calc List.zipWith (fun x y => x + y) (a :: t1)
              ((b :: u2).map fun x => (0 : ℚ) * x)
          = (a + 0 * b) ::
              List.zipWith (fun x y => x + y) t1 (u2.map fun x => (0 : ℚ) * x) := rfl
        _ = a :: t1 := by rw [hh, ih u2 h]

theorem addParams_scaleZero {g : Params} : ∀ {d : Params},
    shapeSig g = shapeSig d → addParams g (scaleParams 0 d) = g := by
  induction g with
  | nil => intro d _; simp [addParams]
  | cons a t1 ih =>
    intro d h
    cases d with
    | nil => simp [shapeSig] at h
    | cons b t2 =>
      simp only [shapeSig, List.map_cons, List.cons.injEq] at h
      calc addParams (a :: t1) (scaleParams 0 (b :: t2))
          = List.zipWith (fun x y => x + y) a (b.map fun x => (0 : ℚ) * x)
              :: addParams t1 (scaleParams 0 t2) := rfl
        _ = a :: t1 := by rw [tAdd_scaleZero a b h.1, ih (d := t2) h.2]

theorem shapeSig_zeroLike (p : Params) : shapeSig (zeroLike p) = shapeSig p := by
  simp [shapeSig, zeroLike, List.map_map, Function.comp_def]

theorem bsub_ok_of_compat {a b : Tensor} (h : broadcastCompat a b) :
    ∃ t, bsub a b = .ok t := by
  unfold bsub
  by_cases h1 : a.length = b.length
  · exact ⟨_, by rw [if_pos h1]⟩
  · by_cases h2 : a.length = 1
    · exact ⟨_, by rw [if_neg h1, if_pos h2]⟩
    · have h3 : b.length = 1 := by
        rcases h with h | h | h
        · exact absurd h h1
        · exact absurd h h2
        · exact h
      exact ⟨_, by rw [if_neg h1, if_neg h2, if_pos h3]⟩

theorem bsub_error_of_not_compat {a b : Tensor} (h : ¬ broadcastCompat a b) :
    bsub a b = .error .incompatibleShapes := by
  unfold broadcastCompat at h
  push_neg at h
  simp [bsub, h.1, h.2.1, h.2.2]

theorem zipSub_ok_of_forall₂ {w1 w2 : Params}
    (h : List.Forall₂ broadcastCompat w1 w2) : ∃ d, zipSub w1 w2 = .ok d := by
  induction h with
  | nil => exact ⟨[], rfl⟩
  | cons hab _ ih =>
    obtain ⟨t, ht⟩ := bsub_ok_of_compat hab
    obtain ⟨d, hd⟩ := ih
    exact ⟨t :: d, by simp [zipSub, ht, hd]⟩

theorem zipSub_error_of_not_forall₂ {w1 : Params} : ∀ {w2 : Params},
    w1.length = w2.length → ¬ List.Forall₂ broadcastCompat w1 w2 →
    zipSub w1 w2 = .error .incompatibleShapes := by
  induction w1 with
  | nil =>
    intro w2 hl hf
    cases w2 with
    | nil => exact absurd List.Forall₂.nil hf
    | cons b t2 => simp at hl
  | cons a t1 ih =>
    intro w2 hl hf
    cases w2 with
    | nil => simp at hl
    | cons b t2 =>
      simp only [List.length_cons, Nat.succ.injEq] at hl
      by_cases hab : broadcastCompat a b
      · have htail : ¬ List.Forall₂ broadcastCompat t1 t2 := by
          intro hcon
          exact hf (List.Forall₂.cons hab hcon)
        obtain ⟨t, ht⟩ := bsub_ok_of_compat hab
        simp [zipSub, ht, ih hl htail]
      · simp [zipSub, bsub_error_of_not_compat hab]

/-! ## Claim C4 -/

/-- C4 counterexample.  The claim says the proximal penalty fails with a
ShapeMismatch error whenever the tensors at some index have differing shapes
and never silently broadcasts.  Here the tensor counts agree (one tensor each)
but the shapes at index 0 differ (length 1 vs length 2); the squared
`w_norm` — the penalty actually consumed by `train_step` — silently broadcasts
the length-1 tensor and returns the value 5 instead of failing. -/
theorem C4_counterexample :
    shapeSig [[(0 : ℚ)]] ≠ shapeSig [[1, 2]] ∧
    wNormSq [[(0 : ℚ)]] [[1, 2]] = .ok 5 := by
  constructor
  · decide
  · norm_num [wNormSq, mapStructureSub, zipSub, bsub, sumSq, sumSqT, Except.map]

/-- C4, amended.  `w_norm` fails with the structure-mismatch error when the
tensor counts differ; with equal counts it produces a penalty exactly when
every index is broadcast-compatible (equal shapes, or one side of size 1) —
differing but broadcast-compatible shapes are silently broadcast — and fails
with the incompatible-shapes error otherwise. -/
theorem C4_amended :
    (∀ w1 w2 : Params, w1.length ≠ w2.length →
        wNormSq w1 w2 = .error .structureMismatch)
  ∧ (∀ w1 w2 : Params, w1.length = w2.length →
      ((List.Forall₂ broadcastCompat w1 w2 → ∃ q, wNormSq w1 w2 = .ok q)
     ∧ (¬ List.Forall₂ broadcastCompat w1 w2 →
          wNormSq w1 w2 = .error .incompatibleShapes))) := by
  constructor
  · intro w1 w2 h
    simp [wNormSq, mapStructureSub, h, Except.map]
  · intro w1 w2 hl
    constructor
    · intro hf
      obtain ⟨d, hd⟩ := zipSub_ok_of_forall₂ hf
      exact ⟨sumSq d, by simp [wNormSq, mapStructureSub, hl, hd, Except.map]⟩
    · intro hf
      simp [wNormSq, mapStructureSub, hl, zipSub_error_of_not_forall₂ hl hf, Except.map]

/-- Witness for the amended C4: a concrete pair with two tensors against one
tensor is rejected with the structure-mismatch error. -/
theorem C4_witness :
    wNormSq [[(0 : ℚ)], [1]] [[2]] = .error .structureMismatch :=
  C4_amended.1 [[(0 : ℚ)], [1]] [[2]] (by decide)

/-- Unfolding of `train_step` once the model is known to be attached. -/
theorem train_step_eq (M : CompiledModel MS OS) (st : WorkerState MS OS)
    (ms : ModelState MS OS) (weights : Option Params) (c n : ℕ) (mu : ℚ)
    (dp : Option DPStrategy) (hm : st.model = some ms) :
    train_step M st weights c n mu dp =
      (seedModel ms weights).bind fun ms1 =>
        (trainLoop M weights mu n ms1 none 0 st.train_set).bind fun r =>
          .ok (⟨some r.1, r.2.2.2, M.metricResult r.1.metricState,
                M.metricResult r.1.metricState⟩, applyDp dp r.1.params,
               r.2.2.1) := by
  simp only [train_step, hm]
  cases hseed : seedModel ms weights with
  | error e => simp [hseed, Except.bind]
  | ok ms1 =>
    simp only [hseed]
    cases hloop : trainLoop M weights mu n ms1 none 0 st.train_set with
    | error e => simp [hloop, Except.bind]
    | ok r => simp [hloop, Except.bind]

/-- `train_step` on a missing model fails the entry assertion. -/
theorem train_step_no_model (M : CompiledModel MS OS) (st : WorkerState MS OS)
    (weights : Option Params) (c n : ℕ) (mu : ℚ) (dp : Option DPStrategy)
    (hm : st.model = none) :
    train_step M st weights c n mu dp = .error .assertionError := by
  unfold train_step
  rw [hm]

/-! ## Claim C9 -/

/-- C9 (confirmed).  With non-null `weights`, the model is reseeded by
`set_weights` before the loop even when `train_steps = 0`: the zero-step call
with no privacy hook returns exactly the received weights, and the live model
parameters are overwritten with them (metric and optimizer state untouched,
no batch consumed). -/
theorem C9_zero_step_reseed (M : CompiledModel MS OS) (st : WorkerState MS OS)
    (ms : ModelState MS OS) (w : Params) (c : ℕ) (mu : ℚ)
    (hm : st.model = some ms) (hs : shapeSig w = shapeSig ms.params) :
    train_step M st (some w) c 0 mu none =
      .ok (⟨some ⟨w, ms.metricState, ms.optState⟩, st.train_set,
            M.metricResult ms.metricState, M.metricResult ms.metricState⟩,
           w, 0) := by
  rw [train_step_eq M st ms (some w) c 0 mu none hm]
  simp [seedModel, setWeights, hs, trainLoop, Except.bind, applyDp]

/-- Witness for C9: a model holding `[[5]]` receives `[[2]]` with zero steps
and returns `[[2]]`, its live parameters also overwritten to `[[2]]`. -/
theorem C9_witness :
    train_step MZ ⟨some ⟨[[5]], (), ()⟩, [b1], [], []⟩ (some [[2]]) 0 0 0 none =
      .ok (⟨some ⟨[[2]], (), ()⟩, [b1], [], []⟩, [[2]], 0) :=
  C9_zero_step_reseed MZ ⟨some ⟨[[5]], (), ()⟩, [b1], [], []⟩ ⟨[[5]], (), ()⟩
    [[2]] 0 0 rfl (by decide)

/-! ## Claim C8 -/

/-- C8 (confirmed).  A call with `train_steps = 0` and a model attached (with
the received weights, if any, matching the model's shape signature, and the
privacy hook, if any, shape-preserving as §4.3 requires) succeeds with
`num_sample = 0`, returns parameters shape-identical to the model's current
parameters, pulls no batch from the source, and applies no optimizer update
(optimizer and metric state unchanged, parameters exactly the post-seed
values). -/
theorem C8_zero_steps (M : CompiledModel MS OS) (st : WorkerState MS OS)
    (ms : ModelState MS OS) (weights : Option Params) (c : ℕ) (mu : ℚ)
    (dp : Option DPStrategy) (hm : st.model = some ms)
    (hw : ∀ w, weights = some w → shapeSig w = shapeSig ms.params)
    (hdp : ∀ d f, dp = some d → d.model_gdp = some f →
      ∀ p, shapeSig (f p) = shapeSig p) :
    ∃ st' out, train_step M st weights c 0 mu dp = .ok (st', out, 0) ∧
      shapeSig out = shapeSig ms.params ∧
      st'.train_set = st.train_set ∧
      st'.model = some ⟨weights.getD ms.params, ms.metricState, ms.optState⟩ := by
  have hs1 : seedModel ms weights =
      .ok ⟨weights.getD ms.params, ms.metricState, ms.optState⟩ := by
    cases weights with
    | none => cases ms; rfl
    | some w => simp [seedModel, setWeights, hw w rfl]
  have hshape : shapeSig (weights.getD ms.params) = shapeSig ms.params := by
    cases weights with
    | none => rfl
    | some w => exact hw w rfl
  rw [train_step_eq M st ms weights c 0 mu dp hm, hs1]
  refine ⟨⟨some ⟨weights.getD ms.params, ms.metricState, ms.optState⟩,
      st.train_set, M.metricResult ms.metricState, M.metricResult ms.metricState⟩,
    applyDp dp (weights.getD ms.params), ?_, ?_, rfl, rfl⟩
  · simp [trainLoop, Except.bind]
  · cases dp with
    | none => simpa [applyDp] using hshape
    | some d =>
      cases hg : d.model_gdp with
      | none => simpa [applyDp, hg] using hshape
      | some f =>
        rw [show applyDp (some d) (weights.getD ms.params) =
            f (weights.getD ms.params) by simp [applyDp, hg]]
        rw [hdp d f rfl hg]
        exact hshape

/-- Witness for C8: zero steps on a model holding `[[5]]`, seeded with `[[2]]`,
no hook. -/
theorem C8_witness :
    ∃ st' out,
      train_step MZ ⟨some ⟨[[5]], (), ()⟩, [b1], [], []⟩ (some [[2]]) 3 0 1 none =
        .ok (st', out, 0) ∧
      shapeSig out = shapeSig [[(5 : ℚ)]] ∧
      st'.train_set = [b1] ∧
      st'.model = some ⟨(some [[(2 : ℚ)]]).getD [[5]], (), ()⟩ :=
  C8_zero_steps MZ ⟨some ⟨[[5]], (), ()⟩, [b1], [], []⟩ ⟨[[5]], (), ()⟩
    (some [[2]]) 3 1 none rfl
    (by intro w hw; cases hw; decide)
    (by intro d f hd; cases hd)

/-! ## Claim C6 -/

/-- C6 (confirmed).  The privacy hook is applied exactly once, and only to the
value returned to the caller: a run with hook `f` succeeds with exactly the
same worker state (in particular the same live model parameters) as the same
run without a hook, the returned value is `f` of the un-transformed
post-training weights, and the live parameters equal those un-transformed
weights regardless of what `f` returns. -/
theorem C6_hook_only_on_output (M : CompiledModel MS OS) (st : WorkerState MS OS)
    (weights : Option Params) (c n : ℕ) (mu : ℚ) (f : Params → Params)
    (st' : WorkerState MS OS) (out : Params) (k : ℕ)
    (h : train_step M st weights c n mu (some ⟨some f⟩) = .ok (st', out, k)) :
    ∃ base, train_step M st weights c n mu none = .ok (st', base, k) ∧
      out = f base ∧ ∃ ms', st'.model = some ms' ∧ ms'.params = base := by
  cases hm : st.model with
  | none =>
    rw [train_step_no_model M st weights c n mu (some ⟨some f⟩) hm] at h
    cases h
  | some ms =>
    rw [train_step_eq M st ms weights c n mu (some ⟨some f⟩) hm] at h
    rw [train_step_eq M st ms weights c n mu none hm]
    cases hseed : seedModel ms weights with
    | error e => rw [hseed] at h; simp [Except.bind] at h
    | ok ms1 =>
      rw [hseed] at h
      simp only [Except.bind] at h ⊢
      revert h
      cases hloop : trainLoop M weights mu n ms1 none 0 st.train_set with
      | error e => intro h; simp at h
      | ok r =>
        intro h
        simp only [applyDp, Except.ok.injEq, Prod.mk.injEq] at h
        obtain ⟨hst, hout, hk⟩ := h
        subst hst hout hk
        exact ⟨r.1.params, by simp [applyDp], rfl, r.1, rfl, rfl⟩

/-- Witness for C6: a hook that always returns all-zero parameters makes the
returned value all-zero while the run without the hook returns the live
parameters `[[5]]`, which stay `[[5]]` in the retained model state. -/
theorem C6_witness :
    ∃ base,
      train_step MZ ⟨some ⟨[[5]], (), ()⟩, [b1], [], []⟩ none 0 1 0 none =
        .ok (⟨some ⟨[[5]], (), ()⟩, [], [], []⟩, base, 1) ∧
      [[(0 : ℚ)]] = zeroLike base ∧
      ∃ ms', (⟨some ⟨[[5]], (), ()⟩, [], [], []⟩ : WorkerState Unit Unit).model =
        some ms' ∧ ms'.params = base :=
  C6_hook_only_on_output MZ ⟨some ⟨[[5]], (), ()⟩, [b1], [], []⟩ none 0 1 0
    zeroLike ⟨some ⟨[[5]], (), ()⟩, [], [], []⟩ [[0]] 1 (by decide)

/-! ## Claim C3 -/

/-- C3 counterexample.  Two successive one-step runs over identical batches
produce snapshots `[("m", 1)]` (run 1) and `[("m", 2)]` (run 2).  The claim
says that after run 2 the two retained snapshot generations are those of run 2
and run 1; in fact both retained fields (`logs` and `epoch_logs`) hold run 2's
snapshot and run 1's snapshot is retained nowhere, because the source assigns
`self.logs = logs` and `self.epoch_logs = copy.deepcopy(self.logs)` — two
copies of the same generation. -/
theorem C3_counterexample :
    train_step MCount stA none 0 1 0 none = .ok (stB, [[1]], 1) ∧
    train_step MCount stB none 1 1 0 none = .ok (stC, [[1]], 1) ∧
    stB.logs = [("m", 1)] ∧
    stC.logs = [("m", 2)] ∧ stC.epoch_logs = [("m", 2)] ∧
    stC.logs ≠ [("m", 1)] ∧ stC.epoch_logs ≠ [("m", 1)] := by
  refine ⟨by decide, by decide, by decide, by decide, by decide, by decide,
    by decide⟩

/-- C3, amended.  After each successful run the controller's two retained
snapshot fields (`logs` and `epoch_logs`) are equal, both holding the
just-finalized metric snapshot of the current run; the previous run's snapshot
is discarded, so only one generation is retained (in duplicate). -/
theorem C3_amended (M : CompiledModel MS OS) (st st' : WorkerState MS OS)
    (weights : Option Params) (c n : ℕ) (mu : ℚ) (dp : Option DPStrategy)
    (out : Params) (k : ℕ)
    (h : train_step M st weights c n mu dp = .ok (st', out, k)) :
    st'.epoch_logs = st'.logs ∧
    ∃ ms', st'.model = some ms' ∧ st'.logs = M.metricResult ms'.metricState := by
  cases hm : st.model with
  | none => rw [train_step_no_model M st weights c n mu dp hm] at h; cases h
  | some ms =>
    rw [train_step_eq M st ms weights c n mu dp hm] at h
    cases hseed : seedModel ms weights with
    | error e => rw [hseed] at h; simp [Except.bind] at h
    | ok ms1 =>
      rw [hseed] at h
      simp only [Except.bind] at h
      revert h
      cases hloop : trainLoop M weights mu n ms1 none 0 st.train_set with
      | error e => intro h; simp at h
      | ok r =>
        intro h
        simp only [Except.ok.injEq, Prod.mk.injEq] at h
        obtain ⟨hst, -, -⟩ := h
        subst hst
        exact ⟨rfl, r.1, rfl, rfl⟩

/-- Witness for the amended C3, at the concrete second run of the
counterexample pair of runs. -/
theorem C3_witness :
    stC.epoch_logs = stC.logs ∧
    ∃ ms', stC.model = some ms' ∧
      stC.logs = MCount.metricResult ms'.metricState :=
  C3_amended MCount stB stC none 1 1 0 none [[1]] 1 (by decide)

/-! ## Claim C2 -/

/-- C2 counterexample.  Runs 1 and 2 are identical: same model parameters
(`[[1]]`, unchanged by the identity optimizer), same single one-label batch.
If the metric accumulator were reset at the start of each run, run 2's
finalized snapshot would equal run 1's (`[("m", 1)]`, reflecting only run 2's
single batch).  Instead run 2 finalizes `[("m", 2)]`: the accumulator carries
run 1's state into run 2, so the snapshot does not reflect only the batches of
that run. -/
theorem C2_counterexample :
    train_step MCount stA none 0 1 0 none = .ok (stB, [[1]], 1) ∧
    train_step MCount stB none 1 1 0 none = .ok (stC, [[1]], 1) ∧
    stB.logs = [("m", 1)] ∧ stC.logs = [("m", 2)] ∧
    stC.logs ≠ stB.logs := by
  refine ⟨by decide, by decide, by decide, by decide, by decide⟩

/-- C2, amended.  `train_step` never resets the metric accumulator: for a
one-step run, the finalized snapshot is the metric read-out of the *entry*
metric state updated with this run's batch — state carried over from earlier
runs is included, so the snapshot reflects all batches since the state was
last reset externally, not only this run's. -/
theorem C2_metrics_carry_over (M : CompiledModel MS OS) (st : WorkerState MS OS)
    (ms : ModelState MS OS) (f : Feat) (y : Tensor) (rest : List RawBatch)
    (c : ℕ) (mu : ℚ) (dp : Option DPStrategy)
    (hm : st.model = some ms) (hts : st.train_set = .pair f y :: rest) :
    ∃ st' out, train_step M st none c 1 mu dp =
        .ok (st', out, (normalizeFeat f).length) ∧
      ∃ ms', st'.model = some ms' ∧
        ms'.metricState =
          M.metricUpdate ms.metricState y (M.predict ms.params (normalizeFeat f)) ∧
        st'.logs = M.metricResult ms'.metricState := by
  rw [train_step_eq M st ms none c 1 mu dp hm, hts]
  simp only [seedModel, Except.bind, trainLoop, unpackBatch, stepLossGrad,
    Nat.zero_add]
  exact ⟨_, _, rfl, _, rfl, rfl, rfl⟩

/-- Witness for the amended C2: the second run of the counterexample pair,
whose snapshot `[("m", 2)]` is the read-out of the carried-in state `1`
updated by the single batch. -/
theorem C2_witness :
    ∃ st' out, train_step MCount stB none 0 1 0 none =
        .ok (st', out, (normalizeFeat (.arr [[1]])).length) ∧
      ∃ ms', st'.model = some ms' ∧
        ms'.metricState =
          MCount.metricUpdate 1 [1]
            (MCount.predict [[1]] (normalizeFeat (.arr [[1]]))) ∧
        st'.logs = MCount.metricResult ms'.metricState :=
  C2_metrics_carry_over MCount stB ⟨[[1]], 1, ()⟩ (.arr [[1]]) [1] [] 0 0 none
    rfl rfl

/-! ## Claim C7 -/

/-- Sample-count bookkeeping of the training loop: on success over well-formed
batches, the accumulator has grown by the total row count of the batches
consumed. -/
theorem trainLoop_num_sample (M : CompiledModel MS OS) (a : Option Params)
    (mu : ℚ) :
    ∀ (n : ℕ) (ms : ModelState MS OS) (loc : Option Locals) (s : ℕ)
      (data : List RawBatch) (ms' : ModelState MS OS) (loc' : Option Locals)
      (s' : ℕ) (rest : List RawBatch),
      (∀ b ∈ data.take n, wellFormed b = true) →
      trainLoop M a mu n ms loc s data = .ok (ms', loc', s', rest) →
      s' = s + ((data.take n).map rowsOf).sum := by
  intro n
  induction n with
  | zero =>
    intro ms loc s data ms' loc' s' rest hwf h
    simp only [trainLoop, Except.ok.injEq, Prod.mk.injEq] at h
    obtain ⟨-, -, hs, -⟩ := h
    simp [← hs]
  | succ k ih =>
    intro ms loc s data ms' loc' s' rest hwf h
    cases data with
    | nil => simp [trainLoop] at h
    | cons b rest0 =>
      have hwf2 : ∀ b2 ∈ rest0.take k, wellFormed b2 = true := by
        intro b2 hb2
        refine hwf b2 ?_
        rw [List.take_succ_cons]
        exact List.mem_cons_of_mem _ hb2
      cases b with
      | malformed l =>
        have hb := hwf (.malformed l) (by rw [List.take_succ_cons]; exact List.mem_cons_self _ _)
        simp [wellFormed] at hb
      | pair f y =>
        simp only [trainLoop, unpackBatch] at h
        revert h
        cases hlg : stepLossGrad M a mu ms.params (normalizeFeat f) y none with
        | error e => intro h; simp at h
        | ok lg =>
          intro h
          have htail := ih _ _ _ _ _ _ _ _ hwf2 h
          rw [List.take_succ_cons]
          simp only [List.map_cons, List.sum_cons, rowsOf]
          omega
      | triple f y sw =>
        simp only [trainLoop, unpackBatch] at h
        revert h
        cases hlg : stepLossGrad M a mu ms.params (normalizeFeat f) y (some sw) with
        | error e => intro h; simp at h
        | ok lg =>
          intro h
          have htail := ih _ _ _ _ _ _ _ _ hwf2 h
          rw [List.take_succ_cons]
          simp only [List.map_cons, List.sum_cons, rowsOf]
          omega

/-- C7 (confirmed).  A completed run's returned `num_sample` equals the exact
sum of the row counts (first-dimension sizes of the normalized feature arrays)
of the batches consumed during that run. -/
theorem C7_num_samples (M : CompiledModel MS OS) (st : WorkerState MS OS)
    (weights : Option Params) (c n : ℕ) (mu : ℚ) (dp : Option DPStrategy)
    (st' : WorkerState MS OS) (out : Params) (k : ℕ)
    (hwf : ∀ b ∈ st.train_set.take n, wellFormed b = true)
    (h : train_step M st weights c n mu dp = .ok (st', out, k)) :
    k = ((st.train_set.take n).map rowsOf).sum := by
  cases hm : st.model with
  | none => rw [train_step_no_model M st weights c n mu dp hm] at h; cases h
  | some ms =>
    rw [train_step_eq M st ms weights c n mu dp hm] at h
    cases hseed : seedModel ms weights with
    | error e => rw [hseed] at h; simp [Except.bind] at h
    | ok ms1 =>
      rw [hseed] at h
      simp only [Except.bind] at h
      revert h
      cases hloop : trainLoop M weights mu n ms1 none 0 st.train_set with
      | error e => intro h; simp at h
      | ok r =>
        intro h
        simp only [Except.ok.injEq, Prod.mk.injEq] at h
        obtain ⟨-, -, hk⟩ := h
        have hsum := trainLoop_num_sample M weights mu n ms1 none 0
          st.train_set r.1 r.2.1 r.2.2.1 r.2.2.2 hwf (by rw [hloop])
        omega

/-- Witness for C7: two steps over batches of 2 and 3 rows yield
`num_sample = 5`. -/
theorem C7_witness :
    (5 : ℕ) = ((stG.train_set.take 2).map rowsOf).sum :=
  C7_num_samples MZ stG none 0 2 0 none ⟨some ⟨[[1]], (), ()⟩, [], [], []⟩
    [[1]] 5 (by decide) (by decide)

/-! ## Claim C10 -/

/-- C10 counterexample.  The claim says a tuple of length other than 2 or 3
makes `train_step` fail with a NameError at the next read of the feature
variable.  Here the malformed tuple (length 4) arrives as the *second* batch:
the call succeeds — the loop silently reuses the previous iteration's still
bound `x, y, s_w`, even double-counting the first batch's 2 rows
(`num_sample = 4`). -/
theorem C10_counterexample :
    train_step MZ stM none 0 2 0 none =
      .ok (⟨some ⟨[[1]], (), ()⟩, [], [], []⟩, [[1]], 4) := by decide

/-- A malformed tuple after a well-formed one behaves exactly as if the
previous batch had been yielded again: the loop keeps the stale bindings. -/
theorem trainLoop_stale (M : CompiledModel MS OS) (a : Option Params) (mu : ℚ)
    (k : ℕ) (ms : ModelState MS OS) (loc : Option Locals) (s : ℕ)
    (f : Feat) (y : Tensor) (l : ℕ) (rest : List RawBatch) :
    trainLoop M a mu (k + 2) ms loc s (.pair f y :: .malformed l :: rest) =
    trainLoop M a mu (k + 2) ms loc s (.pair f y :: .pair f y :: rest) := by
  show trainLoop M a mu (k + 1 + 1) ms loc s _ =
    trainLoop M a mu (k + 1 + 1) ms loc s _
  simp only [trainLoop, unpackBatch]

/-- C10, amended.  The unpacking is total only for tuples of length 2 or 3,
but an out-of-taxonomy NameError (UnboundLocalError) is raised only when the
malformed tuple arrives *before* any well-formed tuple of the call has bound
`x, y, s_w`; a malformed tuple arriving after a well-formed one is silently
replaced by the previous iteration's bindings, and the run proceeds as if the
previous batch had been yielded again. -/
theorem C10_amended :
    (∀ (M : CompiledModel MS OS) (st : WorkerState MS OS)
        (ms : ModelState MS OS) (l : ℕ) (rest : List RawBatch)
        (c k : ℕ) (mu : ℚ) (dp : Option DPStrategy),
        st.model = some ms → st.train_set = .malformed l :: rest →
        train_step M st none c (k + 1) mu dp = .error .nameError)
  ∧ (∀ (M : CompiledModel MS OS) (st : WorkerState MS OS)
        (weights : Option Params) (c k : ℕ) (mu : ℚ) (dp : Option DPStrategy)
        (f : Feat) (y : Tensor) (l : ℕ) (rest : List RawBatch),
        st.train_set = .pair f y :: .malformed l :: rest →
        train_step M st weights c (k + 2) mu dp =
          train_step M { st with train_set := .pair f y :: .pair f y :: rest }
            weights c (k + 2) mu dp) := by
  constructor
  · intro M st ms l rest c k mu dp hm hts
    rw [train_step_eq M st ms none c (k + 1) mu dp hm, hts]
    simp [seedModel, Except.bind, trainLoop, unpackBatch]
  · intro M st weights c k mu dp f y l rest hts
    obtain ⟨mo, ts, lgs, els⟩ := st
    have hts2 : ts = .pair f y :: .malformed l :: rest := hts
    subst hts2
    cases mo with
    | none => rfl
    | some ms =>
      rw [train_step_eq M
          ⟨some ms, .pair f y :: .malformed l :: rest, lgs, els⟩
          ms weights c (k + 2) mu dp rfl]
      rw [train_step_eq M
          ⟨some ms, .pair f y :: .pair f y :: rest, lgs, els⟩
          ms weights c (k + 2) mu dp rfl]
      cases hseed : seedModel ms weights with
      | error e => simp [Except.bind]
      | ok ms1 =>
        simp only [Except.bind]
        congr 1

/-- Witness for the amended C10: a malformed first tuple aborts the call with
the NameError. -/
theorem C10_witness :
    train_step MZ ⟨some ⟨[[1]], (), ()⟩, [.malformed 4, b1], [], []⟩
      none 0 1 0 none = .error .nameError :=
  C10_amended.1 MZ ⟨some ⟨[[1]], (), ()⟩, [.malformed 4, b1], [], []⟩
    ⟨[[1]], (), ()⟩ 4 [b1] 0 0 0 none rfl rfl

/-! ## Claim C1 -/

/-- C1 (confirmed).  First part: whenever the anchor (the received weights) is
present and shape-compatible with the live parameters, the loss value produced
inside the tape equals the model's base compiled loss plus
`mu/2 · (sqrt of the sum of squared entries of current − anchor)²` — the
global Euclidean norm of the tensor-wise difference, squared — and the
gradient extracted from the tape is the base gradient plus the analytic
gradient `mu · (current − anchor)` of that penalty, i.e. the penalty sits
inside the differentiated graph, before the optimizer update.  Second part:
the training loop is compositional with a *fixed* anchor — running `k1 + k2`
steps is running `k1` steps and then `k2` more steps with the same anchor `w`,
so the anchor stays the initial received weights for every step of the run. -/
theorem C1_proximal_loss :
    (∀ (M : CompiledModel MS OS) (w p : Params) (mu : ℚ) (x : Mat) (y : Tensor)
        (sw : Option Tensor), shapeSig w = shapeSig p →
        stepLossGrad M (some w) mu p x y sw =
          .ok (M.baseLoss p x y sw + mu / 2 * sumSq (paramsSub p w),
               addParams (M.baseGrad p x y sw) (scaleParams mu (paramsSub p w))) ∧
        ((M.baseLoss p x y sw + mu / 2 * sumSq (paramsSub p w) : ℚ) : ℝ) =
          (M.baseLoss p x y sw : ℝ) +
            (mu : ℝ) / 2 * Real.sqrt ((sumSq (paramsSub p w) : ℚ) : ℝ) ^ 2)
  ∧ (∀ (M : CompiledModel MS OS) (w : Params) (mu : ℚ) (k1 k2 : ℕ)
        (ms : ModelState MS OS) (loc : Option Locals) (s : ℕ)
        (data : List RawBatch),
        trainLoop M (some w) mu (k1 + k2) ms loc s data =
          (trainLoop M (some w) mu k1 ms loc s data).bind fun r =>
            trainLoop M (some w) mu k2 r.1 r.2.1 r.2.2.1 r.2.2.2) := by
  constructor
  · intro M w p mu x y sw h
    have h1 : wNormSq w p = .ok (sumSq (paramsSub w p)) := wNormSq_of_shape h
    have h2 : mapStructureSub p w = .ok (paramsSub p w) :=
      mapStructureSub_of_shape h.symm
    constructor
    · simp only [stepLossGrad, h1, h2]
      rw [sumSq_sub_comm w p]
    · have hnn : (0 : ℝ) ≤ ((sumSq (paramsSub p w) : ℚ) : ℝ) := by
        exact_mod_cast sumSq_nonneg (paramsSub p w)
      rw [Real.sq_sqrt hnn]
      push_cast
      ring
  · intro M w mu k1
    induction k1 with
    | zero =>
      intro k2 ms loc s data
      simp [trainLoop, Except.bind, Nat.zero_add]
    | succ k ih =>
      intro k2 ms loc s data
      have hadd : k + 1 + k2 = k + k2 + 1 := by omega
      rw [hadd]
      cases data with
      | nil => simp [trainLoop, Except.bind]
      | cons b rest =>
        simp only [trainLoop]
        generalize unpackBatch b loc = ub
        cases ub with
        | error e => simp [Except.bind]
        | ok l =>
          dsimp only
          generalize stepLossGrad M (some w) mu ms.params l.1 l.2.1 l.2.2 = slg
          cases slg with
          | error e => simp [Except.bind]
          | ok lg => exact ih k2 _ _ _ _

/-- Witness for C1: the per-step loss/gradient shape at a concrete anchored
input. -/
theorem C1_witness :
    stepLossGrad MZ (some [[(0 : ℚ)]]) 2 [[1]] [[1]] [1] none =
      .ok (MZ.baseLoss [[1]] [[1]] [1] none + 2 / 2 * sumSq (paramsSub [[1]] [[0]]),
           addParams (MZ.baseGrad [[1]] [[1]] [1] none)
             (scaleParams 2 (paramsSub [[1]] [[0]]))) ∧
    ((MZ.baseLoss [[1]] [[1]] [1] none + 2 / 2 * sumSq (paramsSub [[1]] [[0]]) : ℚ) : ℝ) =
      (MZ.baseLoss [[1]] [[1]] [1] none : ℝ) +
        (2 : ℝ) / 2 * Real.sqrt ((sumSq (paramsSub [[1]] [[0]]) : ℚ) : ℝ) ^ 2 :=
  C1_proximal_loss.1 MZ [[0]] [[1]] 2 [[1]] [1] none (by decide)

/-! ## Claim C5 -/

/-- C5 counterexample.  The claim asserts that for *every* fixed model state,
running with `weights = None` yields the same resulting parameters as running
with `weights` supplied and `mu = 0`.  But a supplied `weights` first reseeds
the model (`set_weights`): with live parameters `[[1]]`, received weights
`[[0]]`, one step and an optimizer that returns the variables unchanged, the
`mu = 0` run returns `[[0]]` while the `None` run returns `[[1]]`. -/
theorem C5_counterexample :
    train_step MZ st5 (some [[0]]) 0 1 0 none ≠
    train_step MZ st5 none 0 1 0 none := by
  have h1 : train_step MZ st5 (some [[0]]) 0 1 0 none =
      .ok (⟨some ⟨[[0]], (), ()⟩, [], [], []⟩, [[0]], 1) := by
    norm_num [train_step, st5, seedModel, setWeights, shapeSig, trainLoop,
      unpackBatch, stepLossGrad, wNormSq, mapStructureSub, zipSub, bsub,
      sumSq, sumSqT, paramsSub, addParams, scaleParams, zeroLike, MZ, b1,
      normalizeFeat, applyDp, Except.bind, Except.map]
  have h2 : train_step MZ st5 none 0 1 0 none =
      .ok (⟨some ⟨[[1]], (), ()⟩, [], [], []⟩, [[1]], 1) := by decide
  rw [h1, h2]
  intro hcon
  simp only [Except.ok.injEq, Prod.mk.injEq, WorkerState.mk.injEq] at hcon
  have := hcon.2.1
  norm_num at this

/-- With a shape-compatible anchor and `mu = 0`, one tape evaluation produces
exactly the base loss and base gradient (the penalty term vanishes). -/
theorem stepLossGrad_mu_zero (M : CompiledModel MS OS) (w p : Params)
    (x : Mat) (y : Tensor) (sw : Option Tensor)
    (hg : shapeSig (M.baseGrad p x y sw) = shapeSig p)
    (hs : shapeSig p = shapeSig w) :
    stepLossGrad M (some w) 0 p x y sw =
      .ok (M.baseLoss p x y sw, M.baseGrad p x y sw) := by
  have h1 : wNormSq w p = .ok (sumSq (paramsSub w p)) := wNormSq_of_shape hs.symm
  have h2 : mapStructureSub p w = .ok (paramsSub p w) := mapStructureSub_of_shape hs
  have h3 : shapeSig (M.baseGrad p x y sw) = shapeSig (paramsSub p w) := by
    rw [hg, shapeSig_paramsSub hs]
  simp only [stepLossGrad, h1, h2, zero_div, zero_mul, add_zero,
    addParams_scaleZero h3]

/-- The training loop with anchor `w` and `mu = 0` coincides with the
anchor-less loop, provided the model's gradients and optimizer preserve the
shape signature and the starting parameters are shaped like `w`. -/
theorem trainLoop_mu_zero (M : CompiledModel MS OS) (w : Params) (mu' : ℚ)
    (hg : ∀ p x y sw, shapeSig (M.baseGrad p x y sw) = shapeSig p)
    (hopt : ∀ os g v, shapeSig (M.optApply os g v).2 = shapeSig v) :
    ∀ (k : ℕ) (ms : ModelState MS OS) (loc : Option Locals) (s : ℕ)
      (data : List RawBatch), shapeSig ms.params = shapeSig w →
      trainLoop M (some w) 0 k ms loc s data =
        trainLoop M none mu' k ms loc s data := by
  intro k
  induction k with
  | zero => intro ms loc s data _; rfl
  | succ k ih =>
    intro ms loc s data hs
    cases data with
    | nil => rfl
    | cons b rest =>
      simp only [trainLoop]
      generalize unpackBatch b loc = ub
      cases ub with
      | error e => rfl
      | ok l =>
        dsimp only
        rw [stepLossGrad_mu_zero M w ms.params l.1 l.2.1 l.2.2
          (hg ms.params l.1 l.2.1 l.2.2) hs]
        show trainLoop M (some w) 0 k _ _ _ _ =
          match stepLossGrad M none mu' ms.params l.1 l.2.1 l.2.2 with
          | Except.error e => Except.error (PyError.tf e)
          | Except.ok lg => trainLoop M none mu' k _ (some l) (s + l.1.length) rest
        rw [show stepLossGrad M none mu' ms.params l.1 l.2.1 l.2.2 =
          .ok (M.baseLoss ms.params l.1 l.2.1 l.2.2,
               M.baseGrad ms.params l.1 l.2.1 l.2.2) from rfl]
        exact ih _ _ _ _ (by rw [hopt, hs])

/-- C5, amended.  When the supplied `received_weights` equal the model's
current live parameters (so that the initial `set_weights` reseed is a no-op
and both runs start from the same state), a run with `mu = 0` is identical to
a run with `received_weights = None`, for every step count, batch source,
privacy hook, and `mu'` on the `None` side: the proximal penalty contributes
nothing to loss or gradients in either case, and the resulting state,
returned parameters and sample count coincide.  (The gradient and optimizer
are assumed shape-preserving, as TensorFlow guarantees.)  Without the equal
starting state the original claim fails, because supplying `weights` reseeds
the model first. -/
theorem C5_amended (M : CompiledModel MS OS) (st : WorkerState MS OS)
    (ms : ModelState MS OS) (w : Params) (c n : ℕ) (mu' : ℚ)
    (dp : Option DPStrategy)
    (hm : st.model = some ms) (hw : ms.params = w)
    (hg : ∀ p x y sw, shapeSig (M.baseGrad p x y sw) = shapeSig p)
    (hopt : ∀ os g v, shapeSig (M.optApply os g v).2 = shapeSig v) :
    train_step M st (some w) c n 0 dp = train_step M st none c n mu' dp := by
  subst hw
  rw [train_step_eq M st ms (some ms.params) c n 0 dp hm,
      train_step_eq M st ms none c n mu' dp hm]
  have hseed : seedModel ms (some ms.params) = .ok ms := by
    simp [seedModel, setWeights]
  rw [hseed]
  simp only [seedModel, Except.bind]
  rw [trainLoop_mu_zero M ms.params mu' hg hopt n ms none 0 st.train_set rfl]

/-- Witness for the amended C5: with live parameters `[[1]]` equal to the
received weights, the `mu = 0` anchored run coincides with the anchor-less run
(here with a different `mu' = 7`, which the anchor-less path never reads). -/
theorem C5_witness :
    train_step MZ st5 (some [[1]]) 0 1 0 none =
      train_step MZ st5 none 0 1 7 none :=
  C5_amended MZ st5 ⟨[[1]], (), ()⟩ [[1]] 0 1 7 none rfl rfl
    (fun p x y sw => shapeSig_zeroLike p) (fun os g v => rfl)

end FedProxSpec
